import Mathlib

/-!
Shallow embedding of the logGear record dispatch engine (src/logger/logger.ts)
and the buffered rotating file sink (src/streams/fileStream/fileStream.ts,
src/streams/fileStream/rotationStrategy.ts).

Severity levels are an ascending enumeration (DEBUG < INFO < WARNING < ERROR <
CRITICAL); the TypeScript enum compares levels numerically, so levels are
embedded as naturals.  Messages are embedded generically (the source type is
`unknown`): the dispatch engine is parametrised by the message type `α`.
Side effects of the pipeline (trigger checks, filter evaluations, obfuscator
applications, sink handle calls, resolving a deferred message supplier) are
recorded as an explicit event trace.
-/

namespace LogGear

abbrev Level := Nat

namespace Level

def DEBUG : Level := 2

def INFO : Level := 3

def WARNING : Level := 4

def ERROR : Level := 5

def CRITICAL : Level := 6

end Level

/-- One immutable unit of log data, from `ImmutableLogRecord`
(msg, metadata, dateTime, level).  The `dateTime` captured at construction is
passed in explicitly by the embedding (`now`). -/
structure LogRecord (α : Type) where
  msg : α
  metadata : List α
  dateTime : Nat
  level : Level
deriving DecidableEq, Repr

/-- A registered sink.  The source's `Stream` interface has optional
lifecycle hooks (`logFooter?`, `destroy?`); their presence is modelled by
flags.  `id` models the object identity used by `removeStream`'s reference
comparison and by per-sink filter/obfuscator decisions. -/
structure Stream where
  id : Nat
  hasLogFooter : Bool
  hasDestroy : Bool
deriving DecidableEq, Repr

/-- Process-scoped metadata handed to `logFooter` (from `LogMetaImpl`). -/
structure LogMeta where
  minLogLevel : Level
  minLogLevelFrom : String
deriving DecidableEq, Repr

/-- A filter after registration-time normalisation: `shouldFilterOut`. -/
abbrev FilterFn (α : Type) := Stream → LogRecord α → Bool

/-- An obfuscator after registration-time normalisation: `obfuscate`. -/
abbrev ObfuscatorFn (α : Type) := Stream → LogRecord α → LogRecord α

/-- Observable pipeline effects of one `logToStreams` call, in order. -/
inductive Event (α : Type) where
  | msgInvoke : Event α
  | triggerCall (tag : Nat) (r : LogRecord α) : Event α
  | filterCall (idx : Nat) (s : Stream) (r : LogRecord α) : Event α
  | obfuscateCall (idx : Nat) (s : Stream) (r : LogRecord α) : Event α
  | handleCall (s : Stream) (r : LogRecord α) : Event α
deriving DecidableEq, Repr

/-- The filter loop of `logToStreams` for one sink, starting at filter index
`j`: each evaluated filter produces a `filterCall` event; the first filter
returning `true` ("filter out") stops the loop with `skip = true`. -/
def runFiltersAux (j : Nat) (s : Stream) (r : LogRecord α) :
    List (FilterFn α) → List (Event α) × Bool
  | [] => ([], false)
  | f :: rest =>
    if f s r then ([Event.filterCall j s r], true)
    else
      let tail := runFiltersAux (j + 1) s r rest
      (Event.filterCall j s r :: tail.1, tail.2)

/-- The filter chain for one sink (indices from 0). -/
def runFilters (filters : List (FilterFn α)) (s : Stream) (r : LogRecord α) :
    List (Event α) × Bool :=
  runFiltersAux 0 s r filters

/-- The obfuscator loop of `logToStreams` for one sink, starting at index `j`:
each obfuscator receives the current record and its result replaces the
current record. -/
def runObfuscatorsAux (j : Nat) (s : Stream) (r : LogRecord α) :
    List (ObfuscatorFn α) → List (Event α) × LogRecord α
  | [] => ([], r)
  | ob :: rest =>
    let tail := runObfuscatorsAux (j + 1) s (ob s r) rest
    (Event.obfuscateCall j s r :: tail.1, tail.2)

/-- The obfuscator chain for one sink (indices from 0). -/
def runObfuscators (obfuscators : List (ObfuscatorFn α)) (s : Stream)
    (r : LogRecord α) : List (Event α) × LogRecord α :=
  runObfuscatorsAux 0 s r obfuscators

/-- One iteration of the stream loop in `logToStreams`: run the filter chain;
if not skipped, run the obfuscator chain (its result replaces the carried
record) and call `stream.handle`; if skipped, the carried record is
unchanged.  Returns the events and the record carried into the next sink. -/
def processStream (filters : List (FilterFn α)) (obfuscators : List (ObfuscatorFn α))
    (s : Stream) (r : LogRecord α) : List (Event α) × LogRecord α :=
  let fres := runFilters filters s r
  if fres.2 then (fres.1, r)
  else
    let ores := runObfuscators obfuscators s r
    (fres.1 ++ ores.1 ++ [Event.handleCall s ores.2], ores.2)

/-- The stream loop of `logToStreams`: sinks processed in registration order,
the single mutable `logRecord` variable carried from each sink to the next. -/
def processStreams (filters : List (FilterFn α)) (obfuscators : List (ObfuscatorFn α))
    (streams : List Stream) (r : LogRecord α) : List (Event α) × LogRecord α :=
  match streams with
  | [] => ([], r)
  | s :: rest =>
    let head := processStream filters obfuscators s r
    let tail := processStreams filters obfuscators rest head.2
    (head.1 ++ tail.1, tail.2)

/-- The `msg` argument of a logging call: either a zero-argument supplier
(`msg instanceof Function`) or an already-computed value. -/
inductive MsgArg (α : Type) where
  | thunk (f : Unit → α) : MsgArg α
  | value (v : α) : MsgArg α

/-- The dispatch engine configuration: minimum level and the ordered
registration lists.  Triggers are observers identified by a tag; their only
effect in the model is the `triggerCall` event. -/
structure Logger (α : Type) where
  minLevel : Level
  streams : List Stream
  filters : List (FilterFn α)
  triggers : List Nat
  obfuscators : List (ObfuscatorFn α)

/-- `Logger.logToStreams`: the level gate, message resolution, record
construction, trigger fan-out and the per-sink pipeline.  Returns the event
trace and the returned value (`none` models `undefined`). -/
def logToStreams (lg : Logger α) (now : Nat) (level : Level) (msg : MsgArg α)
    (metadata : List α) : List (Event α) × Option α :=
  if lg.minLevel > level then
    ([], match msg with
         | .thunk _ => none
         | .value v => some v)
  else
    let resolvedMsg := match msg with
                       | .thunk f => f ()
                       | .value v => v
    let resolveEvents : List (Event α) :=
      match msg with
      | .thunk _ => [Event.msgInvoke]
      | .value _ => []
    let logRecord : LogRecord α := ⟨resolvedMsg, metadata, now, level⟩
    let triggerEvents := lg.triggers.map (fun t => Event.triggerCall t logRecord)
    let streamRes := processStreams lg.filters lg.obfuscators lg.streams logRecord
    (resolveEvents ++ triggerEvents ++ streamRes.1, some resolvedMsg)

/-- `Logger.log(level, msg, ...metadata)`. -/
def Logger.log (lg : Logger α) (now : Nat) (level : Level) (msg : MsgArg α)
    (metadata : List α) : List (Event α) × Option α :=
  logToStreams lg now level msg metadata

/-- `Logger.debug`. -/
def Logger.debug (lg : Logger α) (now : Nat) (msg : MsgArg α) (metadata : List α) :
    List (Event α) × Option α :=
  logToStreams lg now Level.DEBUG msg metadata

/-- `Logger.info`. -/
def Logger.info (lg : Logger α) (now : Nat) (msg : MsgArg α) (metadata : List α) :
    List (Event α) × Option α :=
  logToStreams lg now Level.INFO msg metadata

/-- `Logger.warning`. -/
def Logger.warning (lg : Logger α) (now : Nat) (msg : MsgArg α) (metadata : List α) :
    List (Event α) × Option α :=
  logToStreams lg now Level.WARNING msg metadata

/-- `Logger.error`. -/
def Logger.error (lg : Logger α) (now : Nat) (msg : MsgArg α) (metadata : List α) :
    List (Event α) × Option α :=
  logToStreams lg now Level.ERROR msg metadata

/-- `Logger.critical`. -/
def Logger.critical (lg : Logger α) (now : Nat) (msg : MsgArg α) (metadata : List α) :
    List (Event α) × Option α :=
  logToStreams lg now Level.CRITICAL msg metadata

/-- Lifecycle hook invocations made by `removeStream`. -/
inductive LifeEvent where
  | logFooterCall (s : Stream) (meta : LogMeta) : LifeEvent
  | destroyCall (s : Stream) : LifeEvent
deriving DecidableEq, Repr

/-- `Logger.removeStream`: filter the stream out of the registration list,
then invoke its `logFooter` (with the logger meta) and `destroy` hooks when
present.  Returns the new stream list and the hook invocations in order. -/
def removeStream (streams : List Stream) (meta : LogMeta) (s : Stream) :
    List Stream × List LifeEvent :=
  (streams.filter (fun t => ¬ t = s),
   (if s.hasLogFooter then [LifeEvent.logFooterCall s meta] else [])
     ++ (if s.hasDestroy then [LifeEvent.destroyCall s] else []))

/-- The records delivered to sink `s` by `handle` calls in a trace. -/
def handledRecords (s : Stream) (events : List (Event α)) : List (LogRecord α) :=
  events.filterMap (fun e =>
    match e with
    | .handleCall t r => if t = s then some r else none
    | _ => none)

/-! ## The buffered rotating file sink -/

/-- Encoded bytes (`TextEncoder.encode` output). -/
abbrev Bytes := List Nat

/-- `this.encoder.encode(msg + "\n")`. -/
def encode (msg : String) : Bytes :=
  (msg ++ "\n").toList.map Char.toNat

/-- The filesystem seen by the sink: an association of file paths to
contents. -/
structure FileSys where
  files : List (String × Bytes)
deriving DecidableEq, Repr

/-- Lookup of a path in the entry list (`Deno.statSync` / reading). -/
def fsReadEntries (p : String) : List (String × Bytes) → Option Bytes
  | [] => none
  | e :: rest => if e.1 = p then some e.2 else fsReadEntries p rest

/-- Replace the contents of `p`, creating the file when absent. -/
def fsWriteEntries (p : String) (b : Bytes) :
    List (String × Bytes) → List (String × Bytes)
  | [] => [(p, b)]
  | e :: rest => if e.1 = p then (p, b) :: rest else e :: fsWriteEntries p b rest

/-- Delete every entry for `p` (`Deno.removeSync`). -/
def fsRemoveEntries (p : String) : List (String × Bytes) → List (String × Bytes)
  | [] => []
  | e :: rest => if e.1 = p then fsRemoveEntries p rest else e :: fsRemoveEntries p rest

/-- Read the contents of a file, `none` when absent. -/
def fsRead (fs : FileSys) (p : String) : Option Bytes :=
  fsReadEntries p fs.files

/-- The `exists` helper of rotationStrategy.ts: stat succeeds. -/
def fsExists (fs : FileSys) (p : String) : Bool :=
  (fsRead fs p).isSome

/-- Write (replace or create) a file. -/
def fsWrite (fs : FileSys) (p : String) (b : Bytes) : FileSys :=
  ⟨fsWriteEntries p b fs.files⟩

/-- `Deno.removeSync`. -/
def fsRemove (fs : FileSys) (p : String) : FileSys :=
  ⟨fsRemoveEntries p fs.files⟩

/-- Append bytes to the end of a file opened for appending. -/
def fsAppend (fs : FileSys) (p : String) (b : Bytes) : FileSys :=
  fsWrite fs p ((fsRead fs p).getD [] ++ b)

/-- `Deno.renameSync src dest` (overwrites `dest`); callers in
rotationStrategy.ts guard the call with `exists(source)`. -/
def fsRename (fs : FileSys) (src dest : String) : FileSys :=
  match fsRead fs src with
  | none => fs
  | some b => fsWrite (fsRemove fs src) dest b

/-- `LogFileInitStrategy`. -/
inductive InitStrategy where
  | append
  | overwrite
  | mustNotExist
deriving DecidableEq, Repr

/-- State of a `ByteRotationStrategy` holding a count-based (`of(n).files()`)
retention policy — the policy variant the claims are about: `maxBytes`, the
policy's file count `retentionQuantity`, and `currentFileSize`. -/
structure RotationState where
  maxBytes : Nat
  retentionQuantity : Nat
  currentFileSize : Nat
deriving DecidableEq, Repr

/-- `every(quantity).bytes()`: constructing a `ByteRotationStrategy`
(fail-fast on a non-positive threshold; default retention keeps 7 files). -/
def byteRotationStrategy (maxBytes : Nat) : Except String RotationState :=
  if maxBytes < 1 then Except.error "Max bytes cannot be less than 1"
  else Except.ok ⟨maxBytes, 7, 0⟩

/-- `ByteRotationStrategy.shouldRotate`. -/
def shouldRotate (rot : RotationState) (encodedMsg : Bytes) : Bool :=
  rot.currentFileSize + encodedMsg.length > rot.maxBytes

/-- Numbered backup file name `filename.i`. -/
def backupName (filename : String) (i : Nat) : String :=
  filename ++ "." ++ toString i

/-- The init sweep loop of `ByteRotationStrategy.initLogs` for a count-based
retention policy, over backup indices `is` (the source iterates
`i = 1 .. quantity`): an existing backup is deleted under `overwrite` and
raises the collision error under `mustNotExist`.  The filesystem is threaded
through so that the state at the moment an error is thrown is observable. -/
def sweep (mode : InitStrategy) (filename : String) (fs : FileSys) :
    List Nat → Except String Unit × FileSys
  | [] => (Except.ok (), fs)
  | i :: rest =>
    if fsExists fs (backupName filename i) then
      if mode = InitStrategy.mustNotExist then
        (Except.error ("Found existing log file which must not exist: "
           ++ backupName filename i), fs)
      else sweep mode filename (fsRemove fs (backupName filename i)) rest
    else sweep mode filename fs rest

/-- `ByteRotationStrategy.initLogs` (count-based retention policy): `append`
seeds `currentFileSize` from the existing file size; `overwrite` and
`mustNotExist` sweep the numbered backups `filename.1 .. filename.quantity`. -/
def initLogs (rot : RotationState) (fs : FileSys) (filename : String)
    (mode : InitStrategy) : Except String Unit × RotationState × FileSys :=
  match mode with
  | .append =>
    (Except.ok (),
     { rot with currentFileSize := ((fsRead fs filename).map List.length).getD 0 },
     fs)
  | _ =>
    let res := sweep mode filename fs (List.range' 1 rot.retentionQuantity)
    (res.1, rot, res.2)

/-- The cascade-rename loop of `ByteRotationStrategy.rotate`: for
`i = maxFiles - 1` down to `0`, rename `filename.i` (the live file when
`i = 0`) to `filename.(i+1)` when it exists. -/
def rotateFiles (maxFiles : Nat) (fs : FileSys) (filename : String) : FileSys :=
  (List.range maxFiles).reverse.foldl (fun acc i =>
    let source := if i = 0 then filename else backupName filename i
    let dest := backupName filename (i + 1)
    if fsExists acc source then fsRename acc source dest else acc) fs

/-- State of a `FileStream`: configuration, the in-memory buffer
(`BufWriterSync`), the deferred queue and the filesystem. -/
structure FSState (α : Type) where
  filename : String
  rotation : Option RotationState
  initStrategy : InitStrategy
  maxBufferSize : Nat
  minLogLevel : Level
  buffer : Bytes
  deferredQueue : List (LogRecord α)
  fs : FileSys
deriving DecidableEq, Repr

/-- Observable effects of the file sink. -/
inductive FEvent where
  | openLogFile (p : String) : FEvent
  | shouldRotateCall (encodedMsg : Bytes) : FEvent
  | rotateCall (encodedMsg : Bytes) : FEvent
  | writeSyncCall (encodedMsg : Bytes) : FEvent
  | scheduleDrain : FEvent
deriving DecidableEq, Repr

/-- Whether an event is a call onto the rotation strategy. -/
def FEvent.isRotationEvent : FEvent → Bool
  | .shouldRotateCall _ => true
  | .rotateCall _ => true
  | _ => false

/-- Modelled from the dependency's contract (std `BufWriterSync`, imported in
deps.ts, not part of this repository): `writeSync` buffers the bytes in
memory, flushing buffered bytes through to the file when the capacity
`maxBufferSize` would be exceeded; bytes reach the file in write order. -/
def bufWriteSync (st : FSState α) (data : Bytes) : FSState α :=
  if st.buffer.length + data.length > st.maxBufferSize then
    { st with fs := fsAppend st.fs st.filename (st.buffer ++ data), buffer := [] }
  else { st with buffer := st.buffer ++ data }

/-- Flushing the in-memory buffer to the file when non-empty
(`this.buffer.flush()` guarded by `buffered() > 0`). -/
def flushBuffer (st : FSState α) : FSState α :=
  if st.buffer.length > 0 then
    { st with fs := fsAppend st.fs st.filename st.buffer, buffer := [] }
  else st

/-- `Deno.openSync(filename, openOptions)` in `FileStream.setup`: `append`
reuses or creates, `overwrite` truncates or creates, `mustNotExist` fails when
the file exists; a fresh `BufWriterSync` is then installed. -/
def openLogFile (st : FSState α) : Except String Unit × FSState α :=
  match st.initStrategy with
  | .mustNotExist =>
    if fsExists st.fs st.filename then
      (Except.error ("File exists: " ++ st.filename), st)
    else (Except.ok (), { st with fs := fsWrite st.fs st.filename [], buffer := [] })
  | .overwrite =>
    (Except.ok (), { st with fs := fsWrite st.fs st.filename [], buffer := [] })
  | .append =>
    (Except.ok (),
     { st with fs := fsWrite st.fs st.filename ((fsRead st.fs st.filename).getD []),
               buffer := [] })

/-- `FileStream.setup`: run `initLogs` of the configured rotation strategy
first; an `initLogs` exception propagates, so `Deno.openSync` (the
`openLogFile` event) is never reached.  Otherwise open the log file per the
init strategy. -/
def FileStream.setup (st : FSState α) :
    Except String Unit × FSState α × List FEvent :=
  let afterInit : Except String Unit × FSState α :=
    match st.rotation with
    | none => (Except.ok (), st)
    | some rot =>
      let res := initLogs rot st.fs st.filename st.initStrategy
      (res.1, { st with rotation := some res.2.1, fs := res.2.2 })
  match afterInit with
  | (.error e, st1) => (Except.error e, st1, [])
  | (.ok _, st1) =>
    let res := openLogFile st1
    (res.1, res.2, [FEvent.openLogFile st1.filename])

/-- The operations of the file sink whose bodies call one another:
`handle`, `processDeferredQueue` (and its loop at index `i`), `flush` and
`log`. -/
inductive FOp (α : Type) where
  | handle (r : LogRecord α) : FOp α
  | processQueue : FOp α
  | processFrom (i : Nat) : FOp α
  | flush : FOp α
  | logMsg (msg : String) : FOp α

/-- Executes a file sink operation, faithfully mirroring the mutual calls of
fileStream.ts (`handle` → `processDeferredQueue`/`flush`; `flush` drains the
deferred queue first; `log` calls `flush` inside its rotation branch).  The
recursion of the source is not structurally terminating (flush re-enters the
queue drain while the queue is still unclear), so the embedding is fueled:
`none` means the call has not returned within `fuel` nested calls; a result
independent of all sufficiently large fuel values is the value the source
computes, and `none` at every fuel is divergence.  `fmt` is the externally
supplied record formatter (the `TokenReplacer` collaborator, out of scope).
Returns the resulting state and the file sink events. -/
def fsRun (fmt : LogRecord α → String) :
    Nat → FOp α → FSState α → Option (FSState α × List FEvent)
  | 0, _, _ => none
  | n + 1, .handle r, st =>
    if st.minLogLevel > r.level then some (st, [])
    else if r.level > Level.ERROR then
      let st1 := { st with deferredQueue := st.deferredQueue ++ [r] }
      match fsRun fmt n .processQueue st1 with
      | none => none
      | some (st2, ev2) =>
        match fsRun fmt n .flush st2 with
        | none => none
        | some (st3, ev3) => some (st3, ev2 ++ ev3)
    else
      if st.deferredQueue.length = 0 then
        some ({ st with deferredQueue := st.deferredQueue ++ [r] },
              [FEvent.scheduleDrain])
      else some ({ st with deferredQueue := st.deferredQueue ++ [r] }, [])
  | n + 1, .processQueue, st => fsRun fmt n (.processFrom 0) st
  | n + 1, .processFrom i, st =>
    if h : i < st.deferredQueue.length then
      match fsRun fmt n (.logMsg (fmt (st.deferredQueue.get ⟨i, h⟩))) st with
      | none => none
      | some (st1, ev1) =>
        match fsRun fmt n (.processFrom (i + 1)) st1 with
        | none => none
        | some (st2, ev2) => some (st2, ev1 ++ ev2)
    else some ({ st with deferredQueue := [] }, [])
  | n + 1, .flush, st =>
    let step1 : Option (FSState α × List FEvent) :=
      if st.deferredQueue.length > 0 then fsRun fmt n .processQueue st
      else some (st, [])
    match step1 with
    | none => none
    | some (st1, ev1) => some (flushBuffer st1, ev1)
  | n + 1, .logMsg msg, st =>
    let encodedMsg := encode msg
    if st.maxBufferSize > 0 then
      match st.rotation with
      | some rot =>
        if shouldRotate rot encodedMsg then
          match fsRun fmt n .flush st with
          | none => none
          | some (st1, ev1) =>
            let fs2 := rotateFiles rot.retentionQuantity st1.fs st1.filename
            let st2 := { st1 with
                         fs := fsWrite fs2 st1.filename [],
                         buffer := [],
                         rotation := some { rot with currentFileSize := encodedMsg.length } }
            some (bufWriteSync st2 encodedMsg,
                  FEvent.shouldRotateCall encodedMsg :: ev1
                    ++ [FEvent.rotateCall encodedMsg, FEvent.writeSyncCall encodedMsg])
        else
          some (bufWriteSync st encodedMsg,
                [FEvent.shouldRotateCall encodedMsg, FEvent.writeSyncCall encodedMsg])
      | none => some (bufWriteSync st encodedMsg, [FEvent.writeSyncCall encodedMsg])
    else some (bufWriteSync st encodedMsg, [FEvent.writeSyncCall encodedMsg])

/-- The bytes of the live log file. -/
def fileBytes (st : FSState α) : Bytes :=
  (fsRead st.fs st.filename).getD []

/-! ## Concrete instances used by witnesses and counterexamples -/

/-- A sink with both lifecycle hooks, identity 1. -/
def s1c : Stream := ⟨1, true, true⟩

/-- A sink with both lifecycle hooks, identity 2. -/
def s2c : Stream := ⟨2, true, true⟩

/-- A sink with both lifecycle hooks, identity 3. -/
def s3c : Stream := ⟨3, true, true⟩

/-- An INFO record with message 0. -/
def r0c : LogRecord Nat := ⟨0, [], 0, Level.INFO⟩

/-- One obfuscator that rewrites the message to 99, but only while processing
the sink with identity 1. -/
def obs1 : List (ObfuscatorFn Nat) :=
  [fun s r => if s.id = 1 then { r with msg := 99 } else r]

/-- A filter that filters out exactly the sink with identity 1. -/
def gA : FilterFn Nat := fun s _ => decide (s.id = 1)

/-- A filter that never filters anything out. -/
def gFalse : FilterFn Nat := fun _ _ => false

/-- A filter that filters everything out. -/
def gTrue : FilterFn Nat := fun _ _ => true

/-- A constant record formatter standing in for the `TokenReplacer`
collaborator. -/
def fmt0 : LogRecord Nat → String := fun _ => "m"

/-- A file sink configured with `every(1).bytes()` rotation (so any message
triggers rotation) and default buffer size. -/
def st0 : FSState Nat :=
  ⟨"log.txt", some ⟨1, 2, 0⟩, InitStrategy.append, 8192, Level.DEBUG, [], [], ⟨[]⟩⟩

/-- A CRITICAL record. -/
def rCrit : LogRecord Nat := ⟨0, [], 0, Level.CRITICAL⟩

/-- An INFO record for the file sink. -/
def rLow : LogRecord Nat := ⟨0, [], 0, Level.INFO⟩

/-- The state after `handle rLow` on `st0`: the record sits in the deferred
queue awaiting the scheduled drain. -/
def st1Low : FSState Nat :=
  ⟨"log.txt", some ⟨1, 2, 0⟩, InitStrategy.append, 8192, Level.DEBUG, [], [rLow], ⟨[]⟩⟩

/-- Five pre-existing numbered backups of log.txt. -/
def fs5 : FileSys :=
  ⟨[("log.txt.1", [1]), ("log.txt.2", [1]), ("log.txt.3", [1]),
    ("log.txt.4", [1]), ("log.txt.5", [1])]⟩

/-- A byte rotation strategy whose retention policy keeps 2 files. -/
def rot2 : RotationState := ⟨50, 2, 0⟩

/-- A file sink in `mustNotExist` init mode whose directory already holds the
retained backup log.txt.1. -/
def st7 : FSState Nat :=
  ⟨"log.txt", some ⟨50, 2, 0⟩, InitStrategy.mustNotExist, 8192, Level.DEBUG, [],
   [], ⟨[("log.txt.1", [1])]⟩⟩

/-- A file sink with buffer size 0 and rotation configured. -/
def st9 : FSState Nat :=
  ⟨"log.txt", some ⟨1, 2, 0⟩, InitStrategy.append, 0, Level.DEBUG, [5], [],
   ⟨[("log.txt", [7])]⟩⟩

/-- A logger with minimum level INFO and one registered sink. -/
def lg3 : Logger Nat := ⟨Level.INFO, [s1c], [], [], []⟩

/-- The number of numbered backups `filename.1 .. filename.n` present. -/
def numberedBackupCount (fs : FileSys) (filename : String) (n : Nat) : Nat :=
  ((List.range' 1 n).filter (fun i => fsExists fs (backupName filename i))).length

/-! ## Helper lemmas -/

theorem processStreams_append (filters : List (FilterFn α))
    (obfuscators : List (ObfuscatorFn α)) (l1 l2 : List Stream) (r : LogRecord α) :
    processStreams filters obfuscators (l1 ++ l2) r =
      ((processStreams filters obfuscators l1 r).1
         ++ (processStreams filters obfuscators l2
              (processStreams filters obfuscators l1 r).2).1,
       (processStreams filters obfuscators l2
         (processStreams filters obfuscators l1 r).2).2) := by
  induction l1 generalizing r with
  | nil => simp [processStreams]
  | cons s rest ih =>
    show processStreams filters obfuscators (s :: (rest ++ l2)) r = _
    simp only [processStreams]
    rw [ih]
    simp [processStreams, List.append_assoc]

theorem processStream_not_skipped (filters : List (FilterFn α))
    (obfuscators : List (ObfuscatorFn α)) (s : Stream) (r : LogRecord α)
    (h : (runFilters filters s r).2 = false) :
    processStream filters obfuscators s r =
      ((runFilters filters s r).1 ++ (runObfuscators obfuscators s r).1
         ++ [Event.handleCall s (runObfuscators obfuscators s r).2],
       (runObfuscators obfuscators s r).2) := by
  simp only [processStream, h]
  simp

theorem runFiltersAux_snd_idx (s : Stream) (r : LogRecord α) :
    ∀ (fl : List (FilterFn α)) (j k : Nat),
      (runFiltersAux j s r fl).2 = (runFiltersAux k s r fl).2 := by
  intro fl
  induction fl with
  | nil => intro j k; rfl
  | cons f rest ih =>
    intro j k
    simp only [runFiltersAux]
    by_cases hf : f s r
    · simp [hf]
    · simp only [hf, if_neg, Bool.false_eq_true, not_false_iff]
      exact ih (j + 1) (k + 1)

theorem runFiltersAux_all_false (s : Stream) (r : LogRecord α) :
    ∀ (fl : List (FilterFn α)) (j : Nat), (∀ g ∈ fl, g s r = false) →
      runFiltersAux j s r fl =
        ((List.range' j fl.length).map (fun k => Event.filterCall k s r), false) := by
  intro fl
  induction fl with
  | nil => intro j _; simp [runFiltersAux]
  | cons f rest ih =>
    intro j hall
    have hf : f s r = false := hall f (List.mem_cons_self f rest)
    simp only [runFiltersAux, hf, Bool.false_eq_true, if_neg, not_false_iff]
    rw [ih (j + 1) (fun g hg => hall g (List.mem_cons_of_mem f hg))]
    simp [List.range'_succ]

theorem runFiltersAux_first_true (s : Stream) (r : LogRecord α) :
    ∀ (fpre : List (FilterFn α)) (f : FilterFn α) (fpost : List (FilterFn α)) (j : Nat),
      (∀ g ∈ fpre, g s r = false) → f s r = true →
      runFiltersAux j s r (fpre ++ f :: fpost) =
        ((List.range' j (fpre.length + 1)).map (fun k => Event.filterCall k s r), true) := by
  intro fpre
  induction fpre with
  | nil =>
    intro f fpost j _ hf
    simp [runFiltersAux, hf, List.range'_succ]
  | cons g0 rest ih =>
    intro f fpost j hall hf
    have hg : g0 s r = false := hall g0 (List.mem_cons_self g0 rest)
    show runFiltersAux j s r (g0 :: (rest ++ f :: fpost)) = _
    simp only [runFiltersAux, hg, Bool.false_eq_true, if_neg, not_false_iff]
    rw [ih f fpost (j + 1) (fun g hg2 => hall g (List.mem_cons_of_mem g0 hg2)) hf]
    simp [List.range'_succ]

theorem processStream_skipped (filters : List (FilterFn α))
    (obfuscators : List (ObfuscatorFn α)) (s : Stream) (r : LogRecord α)
    (h : (runFilters filters s r).2 = true) :
    processStream filters obfuscators s r = ((runFilters filters s r).1, r) := by
  simp [processStream, h]

theorem handledRecords_append (s : Stream) (e1 e2 : List (Event α)) :
    handledRecords s (e1 ++ e2) = handledRecords s e1 ++ handledRecords s e2 := by
  simp [handledRecords, List.filterMap_append]

theorem handledRecords_runFiltersAux (s t : Stream) (r : LogRecord α) :
    ∀ (fl : List (FilterFn α)) (j : Nat),
      handledRecords t (runFiltersAux j s r fl).1 = [] := by
  intro fl
  induction fl with
  | nil => intro j; rfl
  | cons f rest ih =>
    intro j
    simp only [runFiltersAux]
    by_cases hf : f s r
    · simp [hf, handledRecords]
    · simp only [hf, Bool.false_eq_true, if_neg, not_false_iff]
      show handledRecords t (Event.filterCall j s r :: (runFiltersAux (j + 1) s r rest).1) = []
      simp [handledRecords, List.filterMap_cons]
      have := ih (j + 1)
      simpa [handledRecords] using this

theorem handledRecords_runObfuscatorsAux (s t : Stream) (r : LogRecord α) :
    ∀ (obs : List (ObfuscatorFn α)) (j : Nat),
      handledRecords t (runObfuscatorsAux j s r obs).1 = [] := by
  intro obs
  induction obs generalizing r with
  | nil => intro j; rfl
  | cons ob rest ih =>
    intro j
    show handledRecords t
      (Event.obfuscateCall j s r :: (runObfuscatorsAux (j + 1) s (ob s r) rest).1) = []
    simp [handledRecords, List.filterMap_cons]
    have := ih (ob s r) (j + 1)
    simpa [handledRecords] using this

theorem handledRecords_processStream_ne (filters : List (FilterFn α))
    (obfuscators : List (ObfuscatorFn α)) (s t : Stream) (r : LogRecord α)
    (h : ¬ s = t) :
    handledRecords t (processStream filters obfuscators s r).1 = [] := by
  cases hsk : (runFilters filters s r).2 with
  | true =>
    rw [processStream_skipped filters obfuscators s r hsk]
    exact handledRecords_runFiltersAux s t r filters 0
  | false =>
    rw [processStream_not_skipped filters obfuscators s r hsk]
    rw [handledRecords_append, handledRecords_append]
    simp only [runFilters, runObfuscators]
    rw [handledRecords_runFiltersAux s t r filters 0,
        handledRecords_runObfuscatorsAux s t r obfuscators 0]
    simp [handledRecords, h]

theorem handledRecords_processStream_self (filters : List (FilterFn α))
    (obfuscators : List (ObfuscatorFn α)) (t : Stream) (r : LogRecord α) :
    handledRecords t (processStream filters obfuscators t r).1 =
      if (runFilters filters t r).2 then []
      else [(runObfuscators obfuscators t r).2] := by
  cases hsk : (runFilters filters t r).2 with
  | true =>
    rw [processStream_skipped filters obfuscators t r hsk]
    simp only [if_pos]
    exact handledRecords_runFiltersAux t t r filters 0
  | false =>
    rw [processStream_not_skipped filters obfuscators t r hsk]
    rw [handledRecords_append, handledRecords_append]
    simp only [runFilters, runObfuscators]
    rw [handledRecords_runFiltersAux t t r filters 0,
        handledRecords_runObfuscatorsAux t t r obfuscators 0]
    simp [handledRecords]

theorem processStream_nil_obfuscators_snd (filters : List (FilterFn α))
    (s : Stream) (r : LogRecord α) :
    (processStream filters ([] : List (ObfuscatorFn α)) s r).2 = r := by
  simp only [processStream]
  by_cases hsk : (runFilters filters s r).2
  · simp [hsk]
  · simp [hsk, runObfuscators, runObfuscatorsAux]

theorem processStreams_cons (filters : List (FilterFn α))
    (obfuscators : List (ObfuscatorFn α)) (s : Stream) (rest : List Stream)
    (r : LogRecord α) :
    processStreams filters obfuscators (s :: rest) r =
      ((processStream filters obfuscators s r).1
         ++ (processStreams filters obfuscators rest
              (processStream filters obfuscators s r).2).1,
       (processStreams filters obfuscators rest
         (processStream filters obfuscators s r).2).2) := rfl

/-! ## Claim theorems -/

/-- C3.  Lazy level gate: a `Logger.log` call (and hence `debug`, `info`,
`warning`, `error`, `critical`, which are `logToStreams` at fixed levels)
whose level is strictly below the logger minimum produces no events at all —
the message supplier is never invoked (no `msgInvoke` event) and no trigger,
filter, obfuscator or sink `handle` runs — and returns `none` (undefined) for
a function message and the value itself for a non-function message. -/
theorem claim_C3 (lg : Logger α) (now : Nat) (level : Level) (msg : MsgArg α)
    (metadata : List α) (h : level < lg.minLevel) :
    Logger.log lg now level msg metadata =
      ([], match msg with
           | .thunk _ => none
           | .value v => some v) := by
  unfold Logger.log logToStreams
  rw [if_pos h]

/-- Witness for C3 at a concrete gated call with a supplier message. -/
theorem claim_C3_witness :
    Level.DEBUG < lg3.minLevel ∧
    Logger.log lg3 0 Level.DEBUG (MsgArg.thunk fun _ => 42) [] = ([], none) :=
  ⟨by decide, claim_C3 lg3 0 Level.DEBUG (MsgArg.thunk fun _ => 42) [] (by decide)⟩

/-- C10.  `removeStream` fires `logFooter` (with the logger meta) then
`destroy` when those hooks are present, independently of whether the stream
is registered (the hook calls do not depend on the stream list at all), and
the registered list afterwards is the old list with the stream absent:
the stream is not a member, every other stream keeps its multiplicity, and
the relative order is preserved (sublist). -/
theorem claim_C10 (streams : List Stream) (meta : LogMeta) (s : Stream) :
    (removeStream streams meta s).2 = (removeStream [] meta s).2 ∧
    (s.hasLogFooter = true → s.hasDestroy = true →
      (removeStream streams meta s).2 =
        [LifeEvent.logFooterCall s meta, LifeEvent.destroyCall s]) ∧
    s ∉ (removeStream streams meta s).1 ∧
    (∀ t : Stream, ¬ t = s →
      (removeStream streams meta s).1.count t = streams.count t) ∧
    (removeStream streams meta s).1.Sublist streams := by
  refine ⟨rfl, ?_, ?_, ?_, ?_⟩
  · intro h1 h2
    simp [removeStream, h1, h2]
  · simp [removeStream, List.mem_filter]
  · intro t ht
    simp only [removeStream]
    exact List.count_filter (by simpa using ht)
  · exact List.filter_sublist streams

/-- Witness for C10: removing a stream that was never registered still fires
footer then destroy, and leaves the registered list intact. -/
theorem claim_C10_witness :
    (removeStream [s1c, s2c] ⟨Level.DEBUG, "default value"⟩ s3c).2 =
      [LifeEvent.logFooterCall s3c ⟨Level.DEBUG, "default value"⟩,
       LifeEvent.destroyCall s3c] ∧
    s3c ∉ (removeStream [s1c, s2c] ⟨Level.DEBUG, "default value"⟩ s3c).1 ∧
    (removeStream [s1c, s2c] ⟨Level.DEBUG, "default value"⟩ s3c).1.count s1c =
      [s1c, s2c].count s1c :=
  ⟨(claim_C10 [s1c, s2c] ⟨Level.DEBUG, "default value"⟩ s3c).2.1 rfl rfl,
   (claim_C10 [s1c, s2c] ⟨Level.DEBUG, "default value"⟩ s3c).2.2.1,
   (claim_C10 [s1c, s2c] ⟨Level.DEBUG, "default value"⟩ s3c).2.2.2.1 s1c (by decide)⟩

/-- C8.  Filter short-circuit within one sink: when the filters are
`fpre ++ f :: fpost` with every filter of `fpre` passing and `f` filtering
sink `S` out, the filter chain for `S` evaluates exactly `fpre.length + 1`
filters (none of `fpost`), `S`'s whole pass produces only those filter-call
events — no obfuscator application and no `handle` call — and leaves the
carried record unchanged, while the remaining sinks are still processed. -/
theorem claim_C8 (fpre : List (FilterFn α)) (f : FilterFn α)
    (fpost : List (FilterFn α)) (obfuscators : List (ObfuscatorFn α))
    (S : Stream) (rest : List Stream) (r : LogRecord α)
    (hpre : ∀ g ∈ fpre, g S r = false) (hf : f S r = true) :
    runFilters (fpre ++ f :: fpost) S r =
      ((List.range' 0 (fpre.length + 1)).map (fun k => Event.filterCall k S r),
       true) ∧
    processStream (fpre ++ f :: fpost) obfuscators S r =
      ((List.range' 0 (fpre.length + 1)).map (fun k => Event.filterCall k S r),
       r) ∧
    (processStreams (fpre ++ f :: fpost) obfuscators (S :: rest) r).1 =
      (List.range' 0 (fpre.length + 1)).map (fun k => Event.filterCall k S r)
        ++ (processStreams (fpre ++ f :: fpost) obfuscators rest r).1 ∧
    (processStreams (fpre ++ f :: fpost) obfuscators (S :: rest) r).2 =
      (processStreams (fpre ++ f :: fpost) obfuscators rest r).2 := by
  have hrf : runFilters (fpre ++ f :: fpost) S r =
      ((List.range' 0 (fpre.length + 1)).map (fun k => Event.filterCall k S r),
       true) :=
    runFiltersAux_first_true S r fpre f fpost 0 hpre hf
  have hps : processStream (fpre ++ f :: fpost) obfuscators S r =
      ((List.range' 0 (fpre.length + 1)).map (fun k => Event.filterCall k S r),
       r) := by
    rw [processStream_skipped _ _ _ _ (by rw [hrf]), hrf]
  refine ⟨hrf, hps, ?_, ?_⟩
  · rw [processStreams_cons, hps]
  · rw [processStreams_cons, hps]

/-- Witness for C8: with filters pass/filter-out/pass, sink 1's pass is the
two filter evaluations only (the third filter untouched, no obfuscation, no
handle), and sink 2 is still processed afterwards. -/
theorem claim_C8_witness :
    runFilters [gFalse, gTrue, gFalse] s1c r0c =
      ([Event.filterCall 0 s1c r0c, Event.filterCall 1 s1c r0c], true) ∧
    processStream [gFalse, gTrue, gFalse] obs1 s1c r0c =
      ([Event.filterCall 0 s1c r0c, Event.filterCall 1 s1c r0c], r0c) ∧
    (processStreams [gFalse, gTrue, gFalse] obs1 [s1c, s2c] r0c).1 =
      [Event.filterCall 0 s1c r0c, Event.filterCall 1 s1c r0c]
        ++ (processStreams [gFalse, gTrue, gFalse] obs1 [s2c] r0c).1 ∧
    (processStreams [gFalse, gTrue, gFalse] obs1 [s1c, s2c] r0c).2 =
      (processStreams [gFalse, gTrue, gFalse] obs1 [s2c] r0c).2 :=
  claim_C8 [gFalse] gTrue [gFalse] obs1 s1c [s2c] r0c
    (by intro g hg; rw [List.mem_singleton] at hg; subst hg; rfl) rfl

/-- C1.  Cumulative obfuscation across sinks: in one emit that reaches the
stream loop, with sinks `pre ++ s1 :: s2 :: post`, let `r1` be the record
carried into `s1` and `r2` the output of `s1`'s obfuscator chain.  If neither
`s1` nor `s2` is filtered out, then `s1`'s pass handles `r2`, and `s2`'s
filter chain, obfuscator chain and `handle` call all receive `r2` — the
record produced by `s1`'s obfuscator chain — so a rewrite made while
processing `s1` is observed by `s2`. -/
theorem claim_C1 (filters : List (FilterFn α)) (obfuscators : List (ObfuscatorFn α))
    (pre post : List Stream) (s1 s2 : Stream) (r0 r1 r2 : LogRecord α)
    (hr1 : r1 = (processStreams filters obfuscators pre r0).2)
    (hr2 : r2 = (runObfuscators obfuscators s1 r1).2)
    (h1 : (runFilters filters s1 r1).2 = false)
    (h2 : (runFilters filters s2 r2).2 = false) :
    processStreams filters obfuscators (pre ++ s1 :: s2 :: post) r0 =
      ((processStreams filters obfuscators pre r0).1
         ++ (runFilters filters s1 r1).1 ++ (runObfuscators obfuscators s1 r1).1
         ++ [Event.handleCall s1 r2]
         ++ (runFilters filters s2 r2).1 ++ (runObfuscators obfuscators s2 r2).1
         ++ [Event.handleCall s2 (runObfuscators obfuscators s2 r2).2]
         ++ (processStreams filters obfuscators post
              (runObfuscators obfuscators s2 r2).2).1,
       (processStreams filters obfuscators post
         (runObfuscators obfuscators s2 r2).2).2) := by
  subst hr2
  subst hr1
  rw [processStreams_append, processStreams_cons, processStreams_cons]
  rw [processStream_not_skipped filters obfuscators s1 _ h1]
  rw [processStream_not_skipped filters obfuscators s2 _ h2]
  simp [List.append_assoc]

/-- Witness for C1: one obfuscator rewrites the message to 99 while
processing sink 1; sink 2's obfuscator chain and handle receive the rewritten
record. -/
theorem claim_C1_witness :
    (runFilters ([] : List (FilterFn Nat)) s1c r0c).2 = false ∧
    (runFilters ([] : List (FilterFn Nat)) s2c ⟨99, [], 0, Level.INFO⟩).2 = false ∧
    processStreams ([] : List (FilterFn Nat)) obs1 [s1c, s2c] r0c =
      ([Event.obfuscateCall 0 s1c r0c,
        Event.handleCall s1c ⟨99, [], 0, Level.INFO⟩,
        Event.obfuscateCall 0 s2c ⟨99, [], 0, Level.INFO⟩,
        Event.handleCall s2c ⟨99, [], 0, Level.INFO⟩],
       ⟨99, [], 0, Level.INFO⟩) :=
  ⟨rfl, rfl,
   Eq.trans
     (claim_C1 [] obs1 [] [] s1c s2c r0c r0c ⟨99, [], 0, Level.INFO⟩
       rfl rfl rfl rfl)
     rfl⟩

/-- C2 counterexample: sinks 1 then 2, one obfuscator that rewrites the
message while processing sink 1.  Comparing the run where a filter skips
sink 1 with the run where no filter does, sink 2 observes different records
(message 0 versus 99): the skip decision for sink 1 changed what sink 2's
handle received, refuting sink-independence of filter decisions as claimed. -/
theorem claim_C2_counterexample :
    handledRecords s2c (processStreams [gA] obs1 [s1c, s2c] r0c).1 ≠
      handledRecords s2c
        (processStreams ([] : List (FilterFn Nat)) obs1 [s1c, s2c] r0c).1 := by
  decide

/-- C2 amended: with no obfuscators registered, filter decisions are
independent across sinks — adding a filter that never matches sink `B`
(however it filters other sinks, e.g. filtering sink `A` out) leaves the
records delivered to `B`, and whether `B.handle` is invoked, unchanged. -/
theorem claim_C2_amended (g : FilterFn α) (filters : List (FilterFn α))
    (streams : List Stream) (r : LogRecord α) (B : Stream) :
    handledRecords B
      (processStreams ((fun s x => if s = B then false else g s x) :: filters)
        ([] : List (ObfuscatorFn α)) streams r).1 =
    handledRecords B
      (processStreams filters ([] : List (ObfuscatorFn α)) streams r).1 := by
  induction streams generalizing r with
  | nil => rfl
  | cons s rest ih =>
    rw [processStreams_cons, processStreams_cons,
        handledRecords_append, handledRecords_append,
        processStream_nil_obfuscators_snd, processStream_nil_obfuscators_snd,
        ih r]
    congr 1
    by_cases hs : s = B
    · subst hs
      rw [handledRecords_processStream_self, handledRecords_processStream_self]
      have hskip : (runFilters
          ((fun t x => if t = s then false else g t x) :: filters) s r).2 =
          (runFilters filters s r).2 := by
        show (runFiltersAux 0 s r
          ((fun t x => if t = s then false else g t x) :: filters)).2 = _
        simp only [runFiltersAux, if_pos rfl, Bool.false_eq_true, if_neg,
                   not_false_iff]
        exact runFiltersAux_snd_idx s r filters 1 0
      rw [hskip]
    · rw [handledRecords_processStream_ne _ _ _ _ _ hs,
          handledRecords_processStream_ne _ _ _ _ _ hs]

/-! ## Filesystem and sweep lemmas -/

theorem fsReadEntries_remove_self (p : String) :
    ∀ entries : List (String × Bytes),
      fsReadEntries p (fsRemoveEntries p entries) = none := by
  intro entries
  induction entries with
  | nil => rfl
  | cons e rest ih =>
    by_cases he : e.1 = p
    · simp [fsRemoveEntries, he, ih]
    · simp [fsRemoveEntries, fsReadEntries, he, ih]

theorem fsReadEntries_remove_ne (p q : String) (h : ¬ q = p) :
    ∀ entries : List (String × Bytes),
      fsReadEntries q (fsRemoveEntries p entries) = fsReadEntries q entries := by
  intro entries
  induction entries with
  | nil => rfl
  | cons e rest ih =>
    by_cases he : e.1 = p
    · have hq : ¬ e.1 = q := fun hc => h (hc.symm.trans he)
      rw [show fsRemoveEntries p (e :: rest) = fsRemoveEntries p rest from by
            simp [fsRemoveEntries, he],
          ih,
          show fsReadEntries q (e :: rest) = fsReadEntries q rest from by
            simp [fsReadEntries, hq]]
    · rw [show fsRemoveEntries p (e :: rest) = e :: fsRemoveEntries p rest from by
            simp [fsRemoveEntries, he]]
      by_cases heq : e.1 = q
      · simp [fsReadEntries, heq]
      · simp [fsReadEntries, heq, ih]

theorem fsRead_fsRemove_self (fs : FileSys) (p : String) :
    fsRead (fsRemove fs p) p = none :=
  fsReadEntries_remove_self p fs.files

theorem fsRead_fsRemove_ne (fs : FileSys) (p q : String) (h : ¬ q = p) :
    fsRead (fsRemove fs p) q = fsRead fs q :=
  fsReadEntries_remove_ne p q h fs.files

theorem fsReadEntries_write_self (p : String) (b : Bytes) :
    ∀ entries : List (String × Bytes),
      fsReadEntries p (fsWriteEntries p b entries) = some b := by
  intro entries
  induction entries with
  | nil => simp [fsWriteEntries, fsReadEntries]
  | cons e rest ih =>
    by_cases he : e.1 = p
    · simp [fsWriteEntries, fsReadEntries, he]
    · simp [fsWriteEntries, fsReadEntries, he, ih]

theorem fsRead_fsWrite_self (fs : FileSys) (p : String) (b : Bytes) :
    fsRead (fsWrite fs p b) p = some b :=
  fsReadEntries_write_self p b fs.files

theorem fsRead_fsAppend_self (fs : FileSys) (p : String) (b : Bytes) :
    fsRead (fsAppend fs p b) p = some ((fsRead fs p).getD [] ++ b) :=
  fsRead_fsWrite_self fs p ((fsRead fs p).getD [] ++ b)

/-- The overwrite sweep never throws. -/
theorem sweep_overwrite_fst (filename : String) :
    ∀ (is : List Nat) (fs : FileSys),
      (sweep InitStrategy.overwrite filename fs is).1 = Except.ok () := by
  intro is
  induction is with
  | nil => intro fs; rfl
  | cons i rest ih =>
    intro fs
    by_cases hex : fsExists fs (backupName filename i)
    · simp [sweep, hex, ih]
    · simp [sweep, hex, ih]

/-- The overwrite sweep only removes files: a path absent before stays
absent. -/
theorem sweep_overwrite_none_mono (filename : String) (p : String) :
    ∀ (is : List Nat) (fs : FileSys), fsRead fs p = none →
      fsRead (sweep InitStrategy.overwrite filename fs is).2 p = none := by
  intro is
  induction is with
  | nil => intro fs h; exact h
  | cons i rest ih =>
    intro fs h
    by_cases hex : fsExists fs (backupName filename i)
    · rw [show sweep InitStrategy.overwrite filename fs (i :: rest) =
            sweep InitStrategy.overwrite filename
              (fsRemove fs (backupName filename i)) rest from by
            simp [sweep, hex]]
      apply ih
      by_cases hp : p = backupName filename i
      · rw [hp]; exact fsRead_fsRemove_self fs (backupName filename i)
      · rw [fsRead_fsRemove_ne fs (backupName filename i) p hp]; exact h
    · rw [show sweep InitStrategy.overwrite filename fs (i :: rest) =
            sweep InitStrategy.overwrite filename fs rest from by
            simp [sweep, hex]]
      exact ih fs h

/-- After the overwrite sweep, every swept backup index is absent. -/
theorem sweep_overwrite_removes (filename : String) :
    ∀ (is : List Nat) (fs : FileSys) (i : Nat), i ∈ is →
      fsRead (sweep InitStrategy.overwrite filename fs is).2
        (backupName filename i) = none := by
  intro is
  induction is with
  | nil => intro fs i hi; cases hi
  | cons j rest ih =>
    intro fs i hi
    by_cases hex : fsExists fs (backupName filename j)
    · rw [show sweep InitStrategy.overwrite filename fs (j :: rest) =
            sweep InitStrategy.overwrite filename
              (fsRemove fs (backupName filename j)) rest from by
            simp [sweep, hex]]
      rcases List.mem_cons.mp hi with hij | hir
      · subst hij
        apply sweep_overwrite_none_mono
        exact fsRead_fsRemove_self fs (backupName filename i)
      · exact ih (fsRemove fs (backupName filename j)) i hir
    · rw [show sweep InitStrategy.overwrite filename fs (j :: rest) =
            sweep InitStrategy.overwrite filename fs rest from by
            simp [sweep, hex]]
      rcases List.mem_cons.mp hi with hij | hir
      · subst hij
        apply sweep_overwrite_none_mono
        exact Option.not_isSome_iff_eq_none.mp hex
      · exact ih fs i hir

/-- The overwrite sweep touches only the swept backup names. -/
theorem sweep_overwrite_preserves (filename : String) (p : String) :
    ∀ (is : List Nat) (fs : FileSys),
      (∀ i ∈ is, ¬ p = backupName filename i) →
      fsRead (sweep InitStrategy.overwrite filename fs is).2 p = fsRead fs p := by
  intro is
  induction is with
  | nil => intro fs _; rfl
  | cons j rest ih =>
    intro fs hp
    have hj : ¬ p = backupName filename j := hp j (List.mem_cons_self j rest)
    by_cases hex : fsExists fs (backupName filename j)
    · rw [show sweep InitStrategy.overwrite filename fs (j :: rest) =
            sweep InitStrategy.overwrite filename
              (fsRemove fs (backupName filename j)) rest from by
            simp [sweep, hex]]
      rw [ih (fsRemove fs (backupName filename j))
            (fun i hi => hp i (List.mem_cons_of_mem j hi))]
      exact fsRead_fsRemove_ne fs (backupName filename j) p hj
    · rw [show sweep InitStrategy.overwrite filename fs (j :: rest) =
            sweep InitStrategy.overwrite filename fs rest from by
            simp [sweep, hex]]
      exact ih fs (fun i hi => hp i (List.mem_cons_of_mem j hi))

/-- The mustNotExist sweep never modifies the filesystem. -/
theorem sweep_mustNotExist_snd (filename : String) :
    ∀ (is : List Nat) (fs : FileSys),
      (sweep InitStrategy.mustNotExist filename fs is).2 = fs := by
  intro is
  induction is with
  | nil => intro fs; rfl
  | cons i rest ih =>
    intro fs
    by_cases hex : fsExists fs (backupName filename i)
    · simp [sweep, hex]
    · simp [sweep, hex, ih]

/-- Whether an Except value is an error. -/
def exceptIsError : Except String Unit → Bool
  | .error _ => true
  | .ok _ => false

/-- The mustNotExist sweep throws as soon as any swept backup exists. -/
theorem sweep_mustNotExist_error (filename : String) :
    ∀ (is : List Nat) (fs : FileSys),
      is.any (fun i => fsExists fs (backupName filename i)) = true →
      exceptIsError (sweep InitStrategy.mustNotExist filename fs is).1 = true := by
  intro is
  induction is with
  | nil => intro fs h; cases h
  | cons i rest ih =>
    intro fs h
    by_cases hex : fsExists fs (backupName filename i)
    · simp [sweep, hex, exceptIsError]
    · simp only [sweep, hex, Bool.false_eq_true, if_neg, not_false_iff]
      apply ih
      rcases List.any_eq_true.mp h with ⟨j, hj, hjex⟩
      rcases List.mem_cons.mp hj with hij | hir
      · subst hij; exact absurd hjex hex
      · exact List.any_eq_true.mpr ⟨j, hir, hjex⟩

/-- Bytes written through the buffer are never lost or reordered: after a
`writeSync`, file contents followed by buffered bytes equal the old contents
followed by the written data. -/
theorem bufWriteSync_bytes (st : FSState α) (data : Bytes) :
    fileBytes (bufWriteSync st data) ++ (bufWriteSync st data).buffer =
      fileBytes st ++ st.buffer ++ data := by
  unfold bufWriteSync
  by_cases hb : st.buffer.length + data.length > st.maxBufferSize
  · rw [if_pos hb]
    simp [fileBytes, fsAppend, fsRead_fsWrite_self, List.append_assoc]
  · rw [if_neg hb]
    simp [fileBytes, List.append_assoc]

/-- C6 counterexample: a byte rotation strategy keeping 2 files, run through
`initLogs` in overwrite mode against 5 pre-existing numbered backups,
succeeds but leaves 3 numbered backups (log.txt.3, log.txt.4, log.txt.5) —
more than the claimed bound of 2. -/
theorem claim_C6_counterexample :
    (initLogs rot2 fs5 "log.txt" InitStrategy.overwrite).1 = Except.ok () ∧
    numberedBackupCount ((initLogs rot2 fs5 "log.txt" InitStrategy.overwrite).2.2)
      "log.txt" 5 = 3 ∧
    ¬ numberedBackupCount ((initLogs rot2 fs5 "log.txt" InitStrategy.overwrite).2.2)
      "log.txt" 5 ≤ 2 := by
  exact ⟨rfl, rfl, by decide⟩

/-- C6 amended: `initLogs` in overwrite mode with a count-based policy of
`n` files removes exactly the numbered backups `filename.1 .. filename.n`
(all of which are absent afterwards) and touches no other path — in
particular higher-numbered pre-existing backups survive, so with 5 backups
and "keep 2 files" exactly backups .1 and .2 are deleted and .3, .4, .5
remain. -/
theorem claim_C6_amended (rot : RotationState) (fs : FileSys) (filename : String) :
    (initLogs rot fs filename InitStrategy.overwrite).1 = Except.ok () ∧
    (∀ i ∈ List.range' 1 rot.retentionQuantity,
      fsExists ((initLogs rot fs filename InitStrategy.overwrite).2.2)
        (backupName filename i) = false) ∧
    (∀ p : String,
      (∀ i ∈ List.range' 1 rot.retentionQuantity, ¬ p = backupName filename i) →
      fsRead ((initLogs rot fs filename InitStrategy.overwrite).2.2) p =
        fsRead fs p) := by
  refine ⟨?_, ?_, ?_⟩
  · exact sweep_overwrite_fst filename (List.range' 1 rot.retentionQuantity) fs
  · intro i hi
    show (fsRead (sweep InitStrategy.overwrite filename fs
      (List.range' 1 rot.retentionQuantity)).2 (backupName filename i)).isSome = false
    rw [sweep_overwrite_removes filename (List.range' 1 rot.retentionQuantity) fs i hi]
    rfl
  · intro p hp
    exact sweep_overwrite_preserves filename p (List.range' 1 rot.retentionQuantity) fs hp

/-- Witness for the amended C6 on the 5-backup, keep-2 configuration. -/
theorem claim_C6_witness :
    fsExists ((initLogs rot2 fs5 "log.txt" InitStrategy.overwrite).2.2)
      (backupName "log.txt" 1) = false ∧
    fsRead ((initLogs rot2 fs5 "log.txt" InitStrategy.overwrite).2.2) "log.txt.4" =
      fsRead fs5 "log.txt.4" :=
  ⟨(claim_C6_amended rot2 fs5 "log.txt").2.1 1 (by decide),
   (claim_C6_amended rot2 fs5 "log.txt").2.2 "log.txt.4" (by decide)⟩

/-- C7.  mustNotExist collision: when a byte rotation strategy with a
count-based policy of `n` files runs `FileStream.setup` in `mustNotExist`
mode and some retained backup `filename.1 .. filename.n` exists, setup
returns the collision error, the filesystem is completely untouched (no file
created or deleted), and no `openLogFile` event occurs — `Deno.openSync` is
never reached. -/
theorem claim_C7 (st : FSState α) (rot : RotationState)
    (hrot : st.rotation = some rot)
    (hmode : st.initStrategy = InitStrategy.mustNotExist)
    (hex : (List.range' 1 rot.retentionQuantity).any
      (fun i => fsExists st.fs (backupName st.filename i)) = true) :
    exceptIsError (FileStream.setup st).1 = true ∧
    (FileStream.setup st).2.1 = st ∧
    (FileStream.setup st).2.2 = [] := by
  obtain ⟨f, rotF, init, mbs, mll, buf, dq, fs⟩ := st
  dsimp only at hrot hmode hex ⊢
  subst hrot
  subst hmode
  have herr := sweep_mustNotExist_error f (List.range' 1 rot.retentionQuantity) fs hex
  have hsnd := sweep_mustNotExist_snd f (List.range' 1 rot.retentionQuantity) fs
  cases hE : (sweep InitStrategy.mustNotExist f fs
      (List.range' 1 rot.retentionQuantity)).1 with
  | error e =>
    refine ⟨?_, ?_, ?_⟩
    · show exceptIsError (FileStream.setup
        (FSState.mk f (some rot) InitStrategy.mustNotExist mbs mll buf dq fs)).1 = true
      simp [FileStream.setup, initLogs, hE, exceptIsError]
    · show (FileStream.setup
        (FSState.mk f (some rot) InitStrategy.mustNotExist mbs mll buf dq fs)).2.1 = _
      simp [FileStream.setup, initLogs, hE, hsnd]
    · show (FileStream.setup
        (FSState.mk f (some rot) InitStrategy.mustNotExist mbs mll buf dq fs)).2.2 = []
      simp [FileStream.setup, initLogs, hE]
  | ok u =>
    rw [hE] at herr
    cases herr

/-- Witness for C7: setup of a sink in mustNotExist mode with retained backup
log.txt.1 present fails, changes nothing, and never opens the log file. -/
theorem claim_C7_witness :
    (List.range' 1 (2 : Nat)).any
      (fun i => fsExists st7.fs (backupName st7.filename i)) = true ∧
    exceptIsError (FileStream.setup st7).1 = true ∧
    (FileStream.setup st7).2.1 = st7 ∧
    (FileStream.setup st7).2.2 = [] :=
  ⟨by decide,
   (claim_C7 st7 ⟨50, 2, 0⟩ rfl rfl (by decide)).1,
   (claim_C7 st7 ⟨50, 2, 0⟩ rfl rfl (by decide)).2.1,
   (claim_C7 st7 ⟨50, 2, 0⟩ rfl rfl (by decide)).2.2⟩

/-- C9.  Buffer size 0 disables rotation checks but not buffering: a
`FileStream.log` call on a sink with `maxBufferSize = 0` performs no
`shouldRotate` and no `rotate` call (the only event is the `writeSync`, and
it is not a rotation event), and the encoded message bytes still flow through
the buffer to the file in order. -/
theorem claim_C9 (fmt : LogRecord α → String) (st : FSState α) (msg : String)
    (fuel : Nat) (h : st.maxBufferSize = 0) :
    fsRun fmt (fuel + 1) (FOp.logMsg msg) st =
      some (bufWriteSync st (encode msg), [FEvent.writeSyncCall (encode msg)]) ∧
    ([FEvent.writeSyncCall (encode msg)]).filter FEvent.isRotationEvent = [] ∧
    fileBytes (bufWriteSync st (encode msg)) ++ (bufWriteSync st (encode msg)).buffer =
      fileBytes st ++ st.buffer ++ encode msg := by
  refine ⟨?_, rfl, bufWriteSync_bytes st (encode msg)⟩
  simp [fsRun, h]

/-- Witness for C9 on a concrete zero-buffer sink with rotation configured. -/
theorem claim_C9_witness :
    st9.maxBufferSize = 0 ∧
    fsRun fmt0 1 (FOp.logMsg "hi") st9 =
      some (bufWriteSync st9 (encode "hi"), [FEvent.writeSyncCall (encode "hi")]) ∧
    fileBytes (bufWriteSync st9 (encode "hi")) ++ (bufWriteSync st9 (encode "hi")).buffer =
      fileBytes st9 ++ st9.buffer ++ encode "hi" :=
  ⟨rfl, (claim_C9 fmt0 st9 "hi" 0 rfl).1, (claim_C9 fmt0 st9 "hi" 0 rfl).2.2⟩

/-- The reentrancy defect of fileStream.ts: while the deferred queue is being
drained the queue is still non-empty, so if the first queued record triggers
rotation, `log` calls `flush`, `flush` re-enters `processDeferredQueue`,
which calls `log` on the same record again, forever — none of
`processDeferredQueue`, `flush` or `log` ever returns, at any fuel. -/
theorem drain_rotation_diverges (fmt : LogRecord α → String) (st : FSState α)
    (rot : RotationState) (hq : 0 < st.deferredQueue.length)
    (hbuf : 0 < st.maxBufferSize) (hrot : st.rotation = some rot)
    (htrig : shouldRotate rot (encode (fmt (st.deferredQueue.get ⟨0, hq⟩))) = true) :
    ∀ fuel : Nat,
      fsRun fmt fuel (FOp.processFrom 0) st = none ∧
      fsRun fmt fuel FOp.processQueue st = none ∧
      fsRun fmt fuel FOp.flush st = none ∧
      fsRun fmt fuel (FOp.logMsg (fmt (st.deferredQueue.get ⟨0, hq⟩))) st = none := by
  intro fuel
  induction fuel with
  | zero => exact ⟨rfl, rfl, rfl, rfl⟩
  | succ n ih =>
    obtain ⟨ihp0, ihpq, ihfl, ihlog⟩ := ih
    refine ⟨?_, ?_, ?_, ?_⟩
    · show fsRun fmt (n + 1) (FOp.processFrom 0) st = none
      simp only [fsRun]
      rw [dif_pos hq, ihlog]
    · show fsRun fmt (n + 1) FOp.processQueue st = none
      simp only [fsRun]
      exact ihp0
    · show fsRun fmt (n + 1) FOp.flush st = none
      simp only [fsRun]
      rw [if_pos (show st.deferredQueue.length > 0 from hq), ihpq]
    · show fsRun fmt (n + 1) (FOp.logMsg (fmt (st.deferredQueue.get ⟨0, hq⟩))) st = none
      simp only [fsRun]
      rw [if_pos hbuf, hrot]
      simp only []
      rw [if_pos htrig, ihfl]

/-- C4 at its failing input: a CRITICAL record (above the sink minimum) on a
sink whose byte rotation strategy triggers for the message — instead of
synchronously draining and flushing before returning, `handle` never returns
(the drain re-enters itself through `log`'s rotation-branch `flush`), at
every fuel. -/
theorem claim_C4_bug :
    ∀ fuel : Nat, fsRun fmt0 fuel (FOp.handle rCrit) st0 = none := by
  intro fuel
  cases fuel with
  | zero => rfl
  | succ n =>
    show fsRun fmt0 (n + 1) (FOp.handle rCrit) st0 = none
    simp only [fsRun]
    rw [if_neg (by decide), if_pos (by decide)]
    rw [(drain_rotation_diverges fmt0
          { st0 with deferredQueue := st0.deferredQueue ++ [rCrit] }
          ⟨1, 2, 0⟩ (by decide) (by decide) rfl (by decide) n).2.1]

/-- C5 at its failing input: a sub-threshold record pushed into an empty
queue does schedule exactly one drain, but the scheduled drain itself never
completes (at any fuel) because the record triggers rotation and the drain
re-enters itself — it neither processes the record exactly once nor leaves
the queue empty. -/
theorem claim_C5_bug :
    (∀ fuel : Nat, fsRun fmt0 (fuel + 1) (FOp.handle rLow) st0 =
      some (st1Low, [FEvent.scheduleDrain])) ∧
    (∀ fuel : Nat, fsRun fmt0 fuel FOp.processQueue st1Low = none) := by
  constructor
  · intro fuel
    show fsRun fmt0 (fuel + 1) (FOp.handle rLow) st0 = _
    simp only [fsRun]
    rw [if_neg (by decide), if_neg (by decide), if_pos (by decide)]
    rfl
  · intro fuel
    exact (drain_rotation_diverges fmt0 st1Low ⟨1, 2, 0⟩
      (by decide) (by decide) rfl (by decide) fuel).2.1

end LogGear
